import Mathlib

/-!
Shallow embedding of the Rust backend in `src/src-tauri/src/main.rs`
(fileNameTranslator).

Rust strings are modelled as `List Char`; byte-level operations (UTF-8
byte length, byte slicing) are modelled explicitly where the source uses
them.  External collaborators — the lingua language detector, the reqwest
HTTP transport, serde_json parsing, and the file system — are modelled as
explicit environment parameters, and the observable effects of a call
(network requests issued, stderr lines printed, file writes attempted)
are returned alongside its result.
-/

namespace FileNameTranslator

/-- The four candidate languages the lingua detector is built from
(`LanguageDetectorBuilder::from_languages`, main.rs lines 51-53). -/
inductive Language
  | English
  | Chinese
  | Japanese
  | Korean
  deriving DecidableEq

/-- The `Output` payload of a Qwen response (main.rs lines 28-31). -/
structure Output where
  text : List Char
  deriving DecidableEq

/-- The `QwenResponse` deserialization target (main.rs lines 20-26):
a mandatory `output`, an optional `code`, an optional `message`. -/
structure QwenResponse where
  output : Output
  code : Option (List Char)
  message : Option (List Char)
  deriving DecidableEq

/-- `splitAtFirst sep l` splits `l` at the first occurrence of `sep`:
`some (before, after)` when `sep` occurs, `none` otherwise.  Applied to a
reversed list it realises the first split of Rust `rsplitn(2, sep)`. -/
def splitAtFirst (sep : Char) : List Char → Option (List Char × List Char)
  | [] => none
  | c :: cs =>
      if c = sep then some ([], cs)
      else
        match splitAtFirst sep cs with
        | none => none
        | some (pre, post) => some (c :: pre, post)

/-- Rust `s.rsplitn(2, sep).collect::<Vec<_>>()` (main.rs line 119):
one element (the whole string) when `sep` does not occur, otherwise two
elements, first the part after the last `sep`, then the part before it. -/
def rsplitn2 (sep : Char) (s : List Char) : List (List Char) :=
  match splitAtFirst sep s.reverse with
  | none => [s]
  | some (pre, post) => [pre.reverse, post.reverse]

/-- The stem/extension split of `translate_filename` (main.rs lines
119-130): match on the collected parts, `[ext, name]` giving
`(name, some ext)` and `[name]` giving `(name, none)`.  The final
pattern models the source's `unreachable!()` arm. -/
def splitFilename (filename : List Char) : List Char × Option (List Char) :=
  match rsplitn2 '.' filename with
  | [ext, name] => (name, some ext)
  | [name] => (name, none)
  | _ => ([], none)

theorem splitAtFirst_some_eq (sep : Char) :
    ∀ (l pre post : List Char), splitAtFirst sep l = some (pre, post) →
      l = pre ++ sep :: post := by
  intro l
  induction l with
  | nil => intro pre post h; simp [splitAtFirst] at h
  | cons c cs ih =>
    intro pre post h
    by_cases hc : c = sep
    · simp only [splitAtFirst, if_pos hc, Option.some.injEq, Prod.mk.injEq] at h
      obtain ⟨h1, h2⟩ := h
      subst hc
      simp [← h1, ← h2]
    · simp only [splitAtFirst, if_neg hc] at h
      cases hs : splitAtFirst sep cs with
      | none => rw [hs] at h; exact absurd h (by simp)
      | some pr =>
        obtain ⟨pre1, post1⟩ := pr
        rw [hs] at h
        simp only [Option.some.injEq, Prod.mk.injEq] at h
        obtain ⟨h1, h2⟩ := h
        rw [← h1, ← h2, ih pre1 post1 hs]
        simp

theorem splitAtFirst_some_not_mem (sep : Char) :
    ∀ (l pre post : List Char), splitAtFirst sep l = some (pre, post) →
      sep ∉ pre := by
  intro l
  induction l with
  | nil => intro pre post h; simp [splitAtFirst] at h
  | cons c cs ih =>
    intro pre post h
    by_cases hc : c = sep
    · simp only [splitAtFirst, if_pos hc] at h
      simp only [Option.some.injEq, Prod.mk.injEq] at h
      rw [← h.1]
      simp
    · simp only [splitAtFirst, if_neg hc] at h
      cases hs : splitAtFirst sep cs with
      | none => rw [hs] at h; exact absurd h (by simp)
      | some pr =>
        obtain ⟨pre1, post1⟩ := pr
        rw [hs] at h
        simp only [Option.some.injEq, Prod.mk.injEq] at h
        obtain ⟨h1, h2⟩ := h
        rw [← h1]
        intro hmem
        rcases List.mem_cons.mp hmem with h | h
        · exact hc h.symm
        · exact ih pre1 post1 hs h

theorem splitAtFirst_none_iff (sep : Char) :
    ∀ l : List Char, splitAtFirst sep l = none ↔ sep ∉ l := by
  intro l
  induction l with
  | nil => simp [splitAtFirst]
  | cons c cs ih =>
    by_cases hc : c = sep
    · subst hc
      simp [splitAtFirst]
    · simp only [splitAtFirst, if_neg hc]
      cases hs : splitAtFirst sep cs with
      | none =>
        have hcs : sep ∉ cs := ih.mp hs
        simp only [List.mem_cons]
        constructor
        · intro _ hmem
          rcases hmem with h | h
          · exact hc h.symm
          · exact hcs h
        · intro _; trivial
      | some pr =>
        obtain ⟨pre1, post1⟩ := pr
        have : sep ∈ cs := by
          rw [splitAtFirst_some_eq sep cs pre1 post1 hs]
          simp
        simp [this]

theorem splitFilename_no_dot (f : List Char) (h : '.' ∉ f) :
    splitFilename f = (f, none) := by
  have hrev : '.' ∉ f.reverse := by simpa using h
  have hnone : splitAtFirst '.' f.reverse = none :=
    (splitAtFirst_none_iff '.' f.reverse).mpr hrev
  simp [splitFilename, rsplitn2, hnone]

theorem splitFilename_dot (f : List Char) (h : '.' ∈ f) :
    ∃ st ex, splitFilename f = (st, some ex) ∧ f = st ++ '.' :: ex ∧ '.' ∉ ex := by
  have hrev : '.' ∈ f.reverse := by simpa using h
  cases hs : splitAtFirst '.' f.reverse with
  | none =>
    exact absurd ((splitAtFirst_none_iff '.' f.reverse).mp hs) (by simp [hrev])
  | some pr =>
    obtain ⟨pre, post⟩ := pr
    refine ⟨post.reverse, pre.reverse, ?_, ?_, ?_⟩
    · simp [splitFilename, rsplitn2, hs]
    · have := splitAtFirst_some_eq '.' f.reverse pre post hs
      have hf : f = (pre ++ '.' :: post).reverse := by
        rw [← this]; simp
      rw [hf]
      simp
    · have := splitAtFirst_some_not_mem '.' f.reverse pre post hs
      simpa using this

/-- C2: for every filename containing at least one `.`, the split
performed by `translate_filename` satisfies
`original = stem ++ "." ++ extension`, with the extension free of dots
(so the split is at the last `.`); for every filename containing no `.`,
the stem is the whole input and the extension is absent. -/
theorem c2_split_roundtrip (f : List Char) :
    ('.' ∈ f → ∃ st ex, splitFilename f = (st, some ex) ∧
        f = st ++ '.' :: ex ∧ '.' ∉ ex) ∧
    ('.' ∉ f → splitFilename f = (f, none)) :=
  ⟨splitFilename_dot f, splitFilename_no_dot f⟩

theorem c2_split_roundtrip_witness :
    (∃ st ex, splitFilename ('a' :: '.' :: 'b' :: '.' :: 'c' :: []) = (st, some ex) ∧
        ('a' :: '.' :: 'b' :: '.' :: 'c' :: []) = st ++ '.' :: ex ∧ '.' ∉ ex) ∧
    splitFilename ('n' :: 'o' :: 't' :: 'e' :: 's' :: []) =
      ('n' :: 'o' :: 't' :: 'e' :: 's' :: [], none) :=
  ⟨(c2_split_roundtrip _).1 (by decide), (c2_split_roundtrip _).2 (by decide)⟩

/-- Observable effects of one call to the translation flow: the user
texts sent over the network (one entry per HTTP request actually issued,
main.rs lines 74-94), and lines printed to stderr (main.rs line 109). -/
structure Efx where
  netCalls : List (List Char)
  stderrLines : List (List Char)
  deriving DecidableEq

/-- External collaborators of `translate_text`, modelled as parameters:
`detect` is the lingua detector built over the four candidate languages
(main.rs lines 51-56); `apiKey` is `env::var("QWEN_API_KEY")` (main.rs
line 64), `none` when the variable is unset; `send` is the reqwest POST
plus body read (main.rs lines 74-96), mapping the user text of the
request to either a transport error or the raw response body text; and
`parse` is `serde_json::from_str::<QwenResponse>` (main.rs line 97),
mapping a body to either a parse-error message or a `QwenResponse`. -/
structure Env where
  detect : List Char → Option Language
  apiKey : Option (List Char)
  send : List Char → Except (List Char) (List Char)
  parse : List Char → Except (List Char) QwenResponse

/-- The failure modes of `translate_text`, tagged by the code path that
produced them; each payload is exactly the string the source builds. -/
inductive TransError
  | languageDetectionFailed
  | missingCredential
  | networkError (e : List Char)
  | remoteApiError (e : List Char)
  | responseParseError (e : List Char)
  deriving DecidableEq

/-- The display string of each error, as the source constructs it
(main.rs lines 56, 68, 103, 110; network errors display the underlying
transport error). -/
def errString : TransError → List Char
  | .languageDetectionFailed => "Could not detect language".data
  | .missingCredential => "QWEN_API_KEY environment variable not set".data
  | .networkError e => e
  | .remoteApiError e => e
  | .responseParseError e => e

/-- Rust `char::is_whitespace` (the Unicode White_Space property), used
by `str::trim` in main.rs line 106. -/
def isRustWhitespace (c : Char) : Bool :=
  c.val = 0x09 || c.val = 0x0A || c.val = 0x0B || c.val = 0x0C ||
  c.val = 0x0D || c.val = 0x20 || c.val = 0x85 || c.val = 0xA0 ||
  c.val = 0x1680 || (0x2000 ≤ c.val && c.val ≤ 0x200A) ||
  c.val = 0x2028 || c.val = 0x2029 || c.val = 0x202F || c.val = 0x205F ||
  c.val = 0x3000

/-- Rust `str::trim` (main.rs line 106): drop leading and trailing
whitespace. -/
def rustTrim (l : List Char) : List Char :=
  ((l.dropWhile isRustWhitespace).reverse.dropWhile isRustWhitespace).reverse

/-- Rust `str::replace(" ", "_")` (main.rs line 134): with a
single-character pattern and replacement this is a character map. -/
def replaceSpaces (l : List Char) : List Char :=
  l.map fun c => if c = ' ' then '_' else c

/-- `translate_text` (main.rs lines 48-113).  Detection failure, the
English short-circuit and the missing-credential check all return before
any network request (empty `netCalls`).  Otherwise exactly one request
carrying `text` is issued; its body is parsed, an explicit non-"200"
status code becomes an API error carrying the payload message, a parse
failure prints the raw body to stderr and carries the parser's message,
and success returns the trimmed `output.text`. -/
def translate_text (env : Env) (text : List Char) :
    Except TransError (List Char) × Efx :=
  match env.detect text with
  | none => (.error .languageDetectionFailed, ⟨[], []⟩)
  | some lang =>
    if lang = Language.English then (.ok text, ⟨[], []⟩)
    else
      match env.apiKey with
      | none => (.error .missingCredential, ⟨[], []⟩)
      | some _ =>
        match env.send text with
        | .error e => (.error (.networkError e), ⟨[text], []⟩)
        | .ok body =>
          match env.parse body with
          | .ok resp =>
            match resp.code with
            | some c =>
              if c ≠ "200".data then
                (.error (.remoteApiError
                    ("API Error: ".data ++ resp.message.getD [])), ⟨[text], []⟩)
              else
                (.ok (rustTrim resp.output.text), ⟨[text], []⟩)
            | none => (.ok (rustTrim resp.output.text), ⟨[text], []⟩)
          | .error e =>
            (.error (.responseParseError
                ("Failed to parse API response: ".data ++ e)),
             ⟨[text], ["Response text: ".data ++ body]⟩)

/-- Reassembly of the translated stem with the optional extension
(main.rs lines 135-138). -/
def joinParts (st : List Char) : Option (List Char) → List Char
  | some ex => st ++ '.' :: ex
  | none => st

/-- `translate_filename` (main.rs lines 115-148): split the filename at
the last `.`, translate the stem, replace every space of the result with
an underscore, reattach the extension; on error report
`Translation error for '<stem>': <error>`. -/
def translate_filename (env : Env) (filename : List Char) :
    Except (List Char) (List Char) × Efx :=
  let name := (splitFilename filename).1
  let ext := (splitFilename filename).2
  match translate_text env name with
  | (.ok translated, fx) => (.ok (joinParts (replaceSpaces translated) ext), fx)
  | (.error e, fx) =>
      (.error ("Translation error for '".data ++ name ++ "': ".data ++
        errString e), fx)

theorem replaceSpaces_no_space : ∀ l : List Char, ' ' ∉ l → replaceSpaces l = l := by
  intro l
  induction l with
  | nil => intro _; rfl
  | cons c cs ih =>
    intro h
    have hc : ¬ c = ' ' := fun hh => h (by simp [hh])
    have hcs : ' ' ∉ cs := fun hh => h (List.mem_cons_of_mem _ hh)
    simp only [replaceSpaces, List.map_cons, if_neg hc]
    have := ih hcs
    simp only [replaceSpaces] at this
    rw [this]

/-- Environment with no credential configured in which every stem is
detected as English; `send` and `parse` are never reached. -/
def envEnglishNoKey : Env where
  detect := fun _ => some Language.English
  apiKey := none
  send := fun _ => Except.error []
  parse := fun _ => Except.error []

/-- C1 (amended): for a stem detected as English, `translate_text`
passes the stem through, but `translate_filename` still applies the
space-to-underscore substitution to it before reassembly; the original
filename comes back unchanged exactly when the stem contains no space. -/
theorem c1_english_branch (env : Env) (fname : List Char)
    (h : env.detect (splitFilename fname).1 = some Language.English) :
    (translate_filename env fname).1 =
      Except.ok (joinParts (replaceSpaces (splitFilename fname).1)
        (splitFilename fname).2) ∧
    (' ' ∉ (splitFilename fname).1 →
      translate_filename env fname = (Except.ok fname, ⟨[], []⟩)) := by
  have htt : translate_text env (splitFilename fname).1 =
      (Except.ok (splitFilename fname).1, ⟨[], []⟩) := by
    simp [translate_text, h]
  constructor
  · simp [translate_filename, htt]
  · intro hsp
    have hrep := replaceSpaces_no_space _ hsp
    by_cases hdot : '.' ∈ fname
    · obtain ⟨st, ex, hsplit, hf, -⟩ := splitFilename_dot fname hdot
      rw [hsplit] at hrep htt
      simp only [] at hrep htt
      simp [translate_filename, hsplit, htt, joinParts, hrep, ← hf]
    · have hsplit := splitFilename_no_dot fname hdot
      rw [hsplit] at hrep htt
      simp only [] at hrep htt
      simp [translate_filename, hsplit, htt, joinParts, hrep]

theorem c1_english_branch_witness :
    (translate_filename envEnglishNoKey "report v2.txt".data).1 =
      Except.ok "report_v2.txt".data ∧
    translate_filename envEnglishNoKey "notes.txt".data =
      (Except.ok "notes.txt".data, ⟨[], []⟩) :=
  ⟨(c1_english_branch envEnglishNoKey "report v2.txt".data rfl).1,
   (c1_english_branch envEnglishNoKey "notes.txt".data rfl).2 (by decide)⟩

/-- C1 counterexample: the stem `"hello world"` is detected as English,
yet `translate_filename` returns `"hello_world.txt"`, not the original
filename — the underscore substitution of main.rs line 134 applies to
the English pass-through as well. -/
theorem c1_english_unchanged_cex :
    envEnglishNoKey.detect (splitFilename "hello world.txt".data).1 =
      some Language.English ∧
    (translate_filename envEnglishNoKey "hello world.txt".data).1 =
      Except.ok "hello_world.txt".data ∧
    "hello_world.txt".data ≠ "hello world.txt".data :=
  ⟨rfl, rfl, by decide⟩

/-- C3 (amended): for a stem detected as a non-English language, a
missing credential makes `translate_filename` fail with the
missing-credential error (`errString TransError.missingCredential` is
`"QWEN_API_KEY environment variable not set"`) and no network request is
issued (`netCalls = []`). -/
theorem c3_missing_credential (env : Env) (fname : List Char) (lang : Language)
    (hkey : env.apiKey = none)
    (hdet : env.detect (splitFilename fname).1 = some lang)
    (hne : lang ≠ Language.English) :
    translate_filename env fname =
      (Except.error ("Translation error for '".data ++ (splitFilename fname).1 ++
        "': ".data ++ errString TransError.missingCredential), ⟨[], []⟩) := by
  have htt : translate_text env (splitFilename fname).1 =
      (Except.error TransError.missingCredential, ⟨[], []⟩) := by
    simp [translate_text, hdet, hne, hkey]
  simp [translate_filename, htt]

def envC3 : Env where
  detect := fun _ => some Language.Chinese
  apiKey := none
  send := fun _ => Except.error []
  parse := fun _ => Except.error []

theorem c3_missing_credential_witness :
    translate_filename envC3 "报告.pdf".data =
      (Except.error ("Translation error for '".data ++ "报告".data ++
        "': ".data ++ errString TransError.missingCredential), ⟨[], []⟩) :=
  c3_missing_credential envC3 "报告.pdf".data Language.Chinese rfl rfl (by decide)

/-- C3 counterexample: with no credential configured, a filename whose
stem is detected as English succeeds (returning the name unchanged)
instead of failing with a missing-credential error, because the English
short-circuit of main.rs lines 60-62 runs before the credential check of
lines 64-70. -/
theorem c3_missing_credential_cex :
    envEnglishNoKey.apiKey = none ∧
    translate_filename envEnglishNoKey "notes".data =
      (Except.ok "notes".data, ⟨[], []⟩) :=
  ⟨rfl, rfl⟩

/-- C4: when the detector returns no classification, `translate_text`
fails with the language-detection error and issues no network request
(`netCalls = []`), before any credential or client code runs. -/
theorem c4_undetected (env : Env) (text : List Char)
    (h : env.detect text = none) :
    translate_text env text =
      (Except.error TransError.languageDetectionFailed, ⟨[], []⟩) := by
  simp [translate_text, h]

def envC4 : Env where
  detect := fun _ => none
  apiKey := some "sk-key".data
  send := fun _ => Except.ok []
  parse := fun _ => Except.error []

theorem c4_undetected_witness :
    translate_text envC4 "zzz###".data =
      (Except.error TransError.languageDetectionFailed, ⟨[], []⟩) :=
  c4_undetected envC4 "zzz###".data rfl

/-- C5: for a non-English stem whose translation succeeds with text `t`,
`translate_filename` replaces every space of `t` with an underscore and
reattaches the extension via `.`. -/
theorem c5_translated_spaces (env : Env) (fname t : List Char)
    (lang : Language) (fx : Efx)
    (_hdet : env.detect (splitFilename fname).1 = some lang)
    (_hne : lang ≠ Language.English)
    (htr : translate_text env (splitFilename fname).1 = (Except.ok t, fx)) :
    translate_filename env fname =
      (Except.ok (joinParts (replaceSpaces t) (splitFilename fname).2), fx) := by
  simp [translate_filename, htr]

def envC5 : Env where
  detect := fun _ => some Language.Chinese
  apiKey := some "sk-test-key".data
  send := fun _ => Except.ok "respbody".data
  parse := fun _ => Except.ok ⟨⟨"Meeting Minutes".data⟩, none, none⟩

theorem c5_translated_spaces_witness :
    translate_filename envC5 "会议 记录.docx".data =
      (Except.ok "Meeting_Minutes.docx".data, ⟨["会议 记录".data], []⟩) :=
  c5_translated_spaces envC5 "会议 记录.docx".data "Meeting Minutes".data
    Language.Chinese ⟨["会议 记录".data], []⟩ rfl (by decide) rfl

/-- C6 (amended): a successfully parsed payload with an explicit
non-"200" status code fails with a remote-API error whose value is
`"API Error: "` followed by the payload message — the status code is not
part of the error value. -/
theorem c6_api_error_message (env : Env) (text body k : List Char)
    (lang : Language) (resp : QwenResponse) (c : List Char)
    (hdet : env.detect text = some lang) (hne : lang ≠ Language.English)
    (hkey : env.apiKey = some k) (hsend : env.send text = Except.ok body)
    (hparse : env.parse body = Except.ok resp) (hcode : resp.code = some c)
    (hc : c ≠ "200".data) :
    translate_text env text =
      (Except.error (TransError.remoteApiError
        ("API Error: ".data ++ resp.message.getD [])), ⟨[text], []⟩) := by
  simp [translate_text, hdet, hne, hkey, hsend, hparse, hcode, hc]

def respC6 : QwenResponse := ⟨⟨"x".data⟩, some "404".data, some "Invalid API key".data⟩

def envC6 : Env where
  detect := fun _ => some Language.Japanese
  apiKey := some "k".data
  send := fun _ => Except.ok "errbody".data
  parse := fun _ => Except.ok respC6

theorem c6_api_error_message_witness :
    translate_text envC6 "帳票".data =
      (Except.error (TransError.remoteApiError "API Error: Invalid API key".data),
       ⟨["帳票".data], []⟩) :=
  c6_api_error_message envC6 "帳票".data "errbody".data "k".data
    Language.Japanese respC6 "404".data rfl (by decide) rfl rfl rfl rfl (by decide)

def respC6a : QwenResponse := ⟨⟨"x".data⟩, some "400".data, some "quota exceeded".data⟩

def respC6b : QwenResponse := ⟨⟨"x".data⟩, some "500".data, some "quota exceeded".data⟩

def envC6a : Env where
  detect := fun _ => some Language.Chinese
  apiKey := some "k".data
  send := fun _ => Except.ok "body".data
  parse := fun _ => Except.ok respC6a

def envC6b : Env where
  detect := fun _ => some Language.Chinese
  apiKey := some "k".data
  send := fun _ => Except.ok "body".data
  parse := fun _ => Except.ok respC6b

/-- C6 counterexample: two payloads with distinct status codes ("400"
and "500") but the same message produce identical error values, so the
returned error cannot carry the status code (main.rs line 103 formats
only the message). -/
theorem c6_status_code_cex :
    respC6a.code = some "400".data ∧
    respC6b.code = some "500".data ∧
    envC6a.parse "body".data = Except.ok respC6a ∧
    envC6b.parse "body".data = Except.ok respC6b ∧
    respC6a.code ≠ respC6b.code ∧
    translate_text envC6a "报表".data = translate_text envC6b "报表".data ∧
    translate_text envC6a "报表".data =
      (Except.error (TransError.remoteApiError "API Error: quota exceeded".data),
       ⟨["报表".data], []⟩) :=
  ⟨rfl, rfl, rfl, rfl, by decide, rfl, rfl⟩

/-- C7 (amended): a body that fails to parse makes `translate_text` fail
with a parse error carrying the parser's message; the raw body is
printed to stderr (`"Response text: " ++ body`, main.rs line 109) but is
not part of the returned error value. -/
theorem c7_parse_error (env : Env) (text body k e : List Char) (lang : Language)
    (hdet : env.detect text = some lang) (hne : lang ≠ Language.English)
    (hkey : env.apiKey = some k) (hsend : env.send text = Except.ok body)
    (hparse : env.parse body = Except.error e) :
    translate_text env text =
      (Except.error (TransError.responseParseError
        ("Failed to parse API response: ".data ++ e)),
       ⟨[text], ["Response text: ".data ++ body]⟩) := by
  simp [translate_text, hdet, hne, hkey, hsend, hparse]

def envC7a : Env where
  detect := fun _ => some Language.Chinese
  apiKey := some "k".data
  send := fun _ => Except.ok "garbage".data
  parse := fun _ => Except.error "expected value at line 1 column 1".data

def envC7b : Env where
  detect := fun _ => some Language.Chinese
  apiKey := some "k".data
  send := fun _ => Except.ok "xarbage".data
  parse := fun _ => Except.error "expected value at line 1 column 1".data

theorem c7_parse_error_witness :
    translate_text envC7a "测试".data =
      (Except.error (TransError.responseParseError
        "Failed to parse API response: expected value at line 1 column 1".data),
       ⟨["测试".data], ["Response text: garbage".data]⟩) :=
  c7_parse_error envC7a "测试".data "garbage".data "k".data
    "expected value at line 1 column 1".data Language.Chinese rfl (by decide)
    rfl rfl rfl

/-- C7 counterexample: two distinct raw bodies whose parse fails with
the same parser message produce identical returned error values, so the
raw body is neither included in nor derivable from the error value (it
only reaches stderr). -/
theorem c7_raw_body_cex :
    envC7a.send "测试".data = Except.ok "garbage".data ∧
    envC7b.send "测试".data = Except.ok "xarbage".data ∧
    "garbage".data ≠ "xarbage".data ∧
    (translate_text envC7a "测试".data).1 = (translate_text envC7b "测试".data).1 ∧
    (translate_text envC7a "测试".data).1 =
      Except.error (TransError.responseParseError
        "Failed to parse API response: expected value at line 1 column 1".data) :=
  ⟨rfl, rfl, by decide, rfl, rfl⟩

/-- The zip compression methods relevant to this code; the options of
main.rs lines 158-159 select `stored` (no compression). -/
inductive CompressionMethod
  | stored
  | deflated
  deriving DecidableEq

/-- One archive entry: entry name, compression method, full byte
content. -/
structure ZipEntry where
  name : List Char
  method : CompressionMethod
  data : List Nat
  deriving DecidableEq

/-- `FileOptions::default().compression_method(Stored)` (main.rs lines
158-159). -/
def zipOptions : CompressionMethod := CompressionMethod.stored

/-- File-system collaborators of `create_zip_file`: `createDest` is
`File::create(zip_path)` (main.rs line 156); `readFile` is `File::open`
plus `read_to_end` (main.rs lines 162-164), returning the full content
or an error string. -/
structure ZipFs where
  createDest : List Char → Except (List Char) Unit
  readFile : List Char → Except (List Char) (List Nat)

/-- The per-file loop of `create_zip_file` (main.rs lines 161-168):
read each source fully into memory, append a stored entry under the
given name, and stop at the first read error.  Returns the outcome
together with the ordered trace of source files actually read. -/
def zipLoop (fs : ZipFs) :
    List (List Char × List Char) → List ZipEntry →
    Except (List Char) (List ZipEntry) × List (List Char)
  | [], acc => (Except.ok acc, [])
  | (src, filename) :: rest, acc =>
    match fs.readFile src with
    | Except.error e => (Except.error e, [src])
    | Except.ok buffer =>
      let r := zipLoop fs rest (acc ++ [⟨filename, zipOptions, buffer⟩])
      (r.1, src :: r.2)

/-- `create_zip_file` (main.rs lines 150-172): create the destination,
then run the per-file loop (`zip.finish()` closes the archive). -/
def create_zip_file (fs : ZipFs) (files : List (List Char × List Char))
    (zipPath : List Char) :
    Except (List Char) (List ZipEntry) × List (List Char) :=
  match fs.createDest zipPath with
  | Except.error e => (Except.error e, [])
  | Except.ok _ => zipLoop fs files []

theorem zipLoop_all_ok (fs : ZipFs) (f : List Char × List Char → List Nat) :
    ∀ (files : List (List Char × List Char)) (acc : List ZipEntry),
      (∀ p ∈ files, fs.readFile p.1 = Except.ok (f p)) →
      zipLoop fs files acc =
        (Except.ok (acc ++ files.map fun p => ⟨p.2, zipOptions, f p⟩),
         files.map fun p => p.1) := by
  intro files
  induction files with
  | nil => intro acc _; simp [zipLoop]
  | cons hd tl ih =>
    intro acc h
    obtain ⟨src, filename⟩ := hd
    have hhd : fs.readFile src = Except.ok (f (src, filename)) :=
      h (src, filename) (by simp)
    have htl : ∀ p ∈ tl, fs.readFile p.1 = Except.ok (f p) :=
      fun p hp => h p (List.mem_cons_of_mem _ hp)
    simp [zipLoop, hhd, ih _ htl]

theorem zipLoop_first_err (fs : ZipFs) :
    ∀ (pre : List (List Char × List Char)) (acc : List ZipEntry)
      (src filename : List Char) (rest : List (List Char × List Char))
      (e : List Char),
      (∀ p ∈ pre, ∃ b, fs.readFile p.1 = Except.ok b) →
      fs.readFile src = Except.error e →
      zipLoop fs (pre ++ (src, filename) :: rest) acc =
        (Except.error e, (pre.map fun p => p.1) ++ [src]) := by
  intro pre
  induction pre with
  | nil => intro acc src filename rest e _ herr; simp [zipLoop, herr]
  | cons hd tl ih =>
    intro acc src filename rest e h herr
    obtain ⟨s0, n0⟩ := hd
    obtain ⟨b0, hb0⟩ := h (s0, n0) (by simp)
    have htl : ∀ p ∈ tl, ∃ b, fs.readFile p.1 = Except.ok b :=
      fun p hp => h p (List.mem_cons_of_mem _ hp)
    simp [zipLoop, hb0, ih _ src filename rest e htl herr]

/-- C8: `create_zip_file` fails immediately on an unwritable
destination (no source read); with a writable destination and all
sources readable it writes one stored (uncompressed) entry per pair,
under the given names, in list order, reading each source fully; and on
the first unreadable source it fails with that read error, having read
exactly the sources up to and including the failing one (no later pair
is processed). -/
theorem c8_zip_order_stored (fs : ZipFs)
    (files : List (List Char × List Char)) (zipPath : List Char) :
    (∀ e, fs.createDest zipPath = Except.error e →
      create_zip_file fs files zipPath = (Except.error e, [])) ∧
    (fs.createDest zipPath = Except.ok () →
      ∀ f : List Char × List Char → List Nat,
        (∀ p ∈ files, fs.readFile p.1 = Except.ok (f p)) →
        create_zip_file fs files zipPath =
          (Except.ok (files.map fun p => ⟨p.2, zipOptions, f p⟩),
           files.map fun p => p.1)) ∧
    (fs.createDest zipPath = Except.ok () →
      ∀ (pre : List (List Char × List Char)) (src filename : List Char)
        (rest : List (List Char × List Char)) (e : List Char),
        files = pre ++ (src, filename) :: rest →
        (∀ p ∈ pre, ∃ b, fs.readFile p.1 = Except.ok b) →
        fs.readFile src = Except.error e →
        create_zip_file fs files zipPath =
          (Except.error e, (pre.map fun p => p.1) ++ [src])) := by
  refine ⟨fun e he => ?_, fun hok f hall => ?_, fun hok pre src filename rest e hfiles hpre herr => ?_⟩
  · simp [create_zip_file, he]
  · simp [create_zip_file, hok, zipLoop_all_ok fs f files [] hall]
  · subst hfiles
    simp [create_zip_file, hok, zipLoop_first_err fs pre [] src filename rest e hpre herr]

def fsC8 : ZipFs where
  createDest := fun _ => Except.ok ()
  readFile := fun p =>
    if p = "a.txt".data then Except.ok [104, 105]
    else if p = "b.bin".data then Except.ok [1, 2, 3]
    else Except.error "No such file".data

theorem c8_zip_order_stored_witness :
    create_zip_file fsC8
      [("a.txt".data, "x.txt".data), ("b.bin".data, "y.bin".data)]
      "out.zip".data =
      (Except.ok [⟨"x.txt".data, CompressionMethod.stored, [104, 105]⟩,
                  ⟨"y.bin".data, CompressionMethod.stored, [1, 2, 3]⟩],
       ["a.txt".data, "b.bin".data]) :=
  (c8_zip_order_stored fsC8 _ "out.zip".data).2.1 rfl
    (fun p => if p.1 = "a.txt".data then [104, 105] else [1, 2, 3])
    (by intro p hp; fin_cases hp <;> rfl)

/-- Rust Unix path absoluteness: a path is absolute iff it starts with
the separator. -/
def isAbsolutePath : List Char → Bool
  | '/' :: _ => true
  | _ => false

/-- Rust `Path::join` on Unix (main.rs line 177): an absolute argument
replaces the base entirely; otherwise the argument is appended to the
base, with a separator added unless the base is empty or already ends
with one. -/
def pathJoin (base p : List Char) : List Char :=
  if isAbsolutePath p then p
  else if base = [] then p
  else if base.getLast? = some '/' then base ++ p
  else base ++ '/' :: p

/-- File-system collaborator of `create_temp_file`: `std::fs::write`
(main.rs line 179). -/
structure TempFs where
  write : List Char → List Nat → Except (List Char) Unit

/-- `create_temp_file` (main.rs lines 174-183): join the temp directory
with the given name, write the content there, and return that path
(`to_string_lossy` is the identity on valid Unicode).  The second
component is the trace of writes attempted (path, content). -/
def create_temp_file (tempDir : List Char) (fs : TempFs)
    (fileName : List Char) (content : List Nat) :
    Except (List Char) (List Char) × List (List Char × List Nat) :=
  let temp_path := pathJoin tempDir fileName
  match fs.write temp_path content with
  | Except.error e => (Except.error e, [(temp_path, content)])
  | Except.ok _ => (Except.ok temp_path, [(temp_path, content)])

/-- C9 (amended): a successful `create_temp_file` writes the content at
`tempDir` joined with the name (Path::join semantics) and returns that
path; for a relative name and a well-formed temp directory the path is
`tempDir ++ "/" ++ name`, i.e. lies inside the temp directory. -/
theorem c9_temp_file_path (tempDir fileName : List Char) (content : List Nat)
    (fs : TempFs)
    (hwr : fs.write (pathJoin tempDir fileName) content = Except.ok ()) :
    create_temp_file tempDir fs fileName content =
      (Except.ok (pathJoin tempDir fileName),
       [(pathJoin tempDir fileName, content)]) ∧
    (isAbsolutePath fileName = false → tempDir ≠ [] →
      tempDir.getLast? ≠ some '/' →
      pathJoin tempDir fileName = tempDir ++ '/' :: fileName) := by
  constructor
  · simp [create_temp_file, hwr]
  · intro habs hne hsl
    simp [pathJoin, habs, hne, hsl]

def fsC9 : TempFs where
  write := fun _ _ => Except.ok ()

theorem c9_temp_file_path_witness :
    create_temp_file "/tmp".data fsC9 "report.pdf".data [37, 80] =
      (Except.ok "/tmp/report.pdf".data, [("/tmp/report.pdf".data, [37, 80])]) ∧
    pathJoin "/tmp".data "report.pdf".data =
      "/tmp".data ++ '/' :: "report.pdf".data :=
  ⟨(c9_temp_file_path "/tmp".data "report.pdf".data [37, 80] fsC9 rfl).1,
   (c9_temp_file_path "/tmp".data "report.pdf".data [37, 80] fsC9 rfl).2
     rfl (by decide) (by decide)⟩

/-- C9 counterexample: an absolute file name makes `Path::join` discard
the temp directory, so the file is written at the name itself — a path
that does not lie inside the temp directory (it does not even start
with `"/tmp"`). -/
theorem c9_escape_cex :
    (create_temp_file "/tmp".data fsC9 "/etc/passwd".data [0]).1 =
      Except.ok "/etc/passwd".data ∧
    ("/etc/passwd".data).take 4 ≠ "/tmp".data ∧
    (create_temp_file "/tmp".data fsC9 "/etc/passwd".data [0]).2 =
      [("/etc/passwd".data, [0])] :=
  ⟨rfl, by decide, rfl⟩

/-- UTF-8 byte length of one character. -/
def utf8Len (c : Char) : Nat :=
  if c.val < 0x80 then 1
  else if c.val < 0x800 then 2
  else if c.val < 0x10000 then 3
  else 4

/-- UTF-8 byte length of a string (Rust `str::len`, main.rs line 201). -/
def byteLen (l : List Char) : Nat := (l.map utf8Len).sum

/-- Rust byte slicing `&key[0..n]` (main.rs line 202): the characters
occupying bytes `0..n`, defined only when byte index `n` falls on a
character boundary; `none` models the slicing panic. -/
def byteSliceTo : Nat → List Char → Option (List Char)
  | 0, _ => some []
  | _ + 1, [] => none
  | n + 1, c :: cs =>
    if utf8Len c ≤ n + 1 then
      (byteSliceTo (n + 1 - utf8Len c) cs).map (c :: ·)
    else none

/-- The credential-masking step of `main` (main.rs lines 199-206): a key
longer than 4 bytes is masked to its first four bytes followed by
`"..."`; shorter keys become `"***"`.  `none` models the panic of the
byte slice when byte index 4 is not a character boundary. -/
def maskApiKey (key : List Char) : Option (List Char) :=
  if byteLen key > 4 then (byteSliceTo 4 key).map (· ++ "...".data)
  else some "***".data

/-- C10: the masking step is not total.  A key of three 3-byte
characters has byte length 9 > 4 and byte index 4 falls inside its
second character, so the byte slice `&key[0..4]` panics — the panic
branch is reachable.  (An ASCII key of more than 4 bytes is masked
normally.) -/
theorem c10_mask_panic_reachable :
    byteLen "日本語".data = 9 ∧
    4 < byteLen "日本語".data ∧
    maskApiKey "日本語".data = none ∧
    maskApiKey "sk-test".data = some "sk-t...".data :=
  ⟨rfl, by decide, rfl, rfl⟩

end FileNameTranslator
